import Mathlib

/-!
# Verification of the JuiceBox Pro / Income Bot option-income scan engine

Shallow embedding of the decision logic of the two source files:

* `juicebox_pro.py.py` — the "JuiceBox Pro (Master)" scanner: per-ticker
  strategy filtering (`scan`), premium/intrinsic/extrinsic decomposition,
  juice computation, contract sizing, collateral checks (`_collateral_ok`),
  grading (`grade_from_return`), best-candidate selection and batch
  aggregation (`scan_all`).
* `income_bot.py` — the "Deep Scanner" per-expiration evaluation loop and
  the Black–Scholes probability-of-profit estimate (`calculate_pop`).

Money amounts, prices and premiums are embedded as exact rationals (the
Python code uses floats; the claims under study are about the arithmetic
policy, not floating-point rounding).  Python's `round(x, n)` (banker's
rounding at exact halves) is modelled by `round2` / `round0`.
Presentation-only string formatting (the `Why` text built by
`_qualify_text`, f-string details, the "Win Prob" percent string) is
elided; every numeric field and every control-flow decision of the source
is kept.
-/

/-- Python `round(x, 2)`: round to 2 decimal places, ties to even
(banker's rounding, Python's documented behaviour for `round`). -/
def round2 (x : ℚ) : ℚ :=
  let y := x * 100
  let f : ℤ := ⌊y⌋
  let frac := y - f
  let r : ℤ :=
    if frac < 1/2 then f
    else if 1/2 < frac then f + 1
    else if f % 2 = 0 then f else f + 1
  (r : ℚ) / 100

/-- Python `round(x, 0)` (as used for the `Collateral` field): round to an
integer, ties to even. -/
def round0 (x : ℚ) : ℚ :=
  let f : ℤ := ⌊x⌋
  let frac := x - f
  let r : ℤ :=
    if frac < 1/2 then f
    else if 1/2 < frac then f + 1
    else if f % 2 = 0 then f else f + 1
  (r : ℚ)

/-- One row of an option chain, as consumed by the scanner
(`bid`/`ask`/`lastPrice` are `Option` to model pandas NA; `openInterest`
is read through `safe_int` with default 0, modelled here as a plain
integer). -/
structure OptionRow where
  strike : ℚ
  bid : Option ℚ
  ask : Option ℚ
  lastPrice : Option ℚ
  openInterest : ℤ
deriving DecidableEq, Repr

/-- `mid_price(row)` from `juicebox_pro.py.py` lines 105–112:
mid of bid/ask when both are present and `ask > 0`, else `lastPrice`
when present, else 0. -/
def mid_price (row : OptionRow) : ℚ :=
  match row.bid, row.ask with
  | some b, some a =>
      if 0 < a then (b + a) / 2
      else match row.lastPrice with
           | some l => l
           | none => 0
  | _, _ =>
      match row.lastPrice with
      | some l => l
      | none => 0

/-- `grade_from_return(ret_pct)` from `juicebox_pro.py.py` lines 130–136. -/
def grade_from_return (ret_pct : ℚ) : String × String :=
  if 3 ≤ ret_pct then ("🟢 A", "a")
  else if 3/2 ≤ ret_pct then ("🟡 B", "b")
  else ("🔴 C", "c")

/-- The five strategy variants of the `Mode` selectbox. -/
inductive Mode
  | standardCC   -- "Covered Call (Standard OTM)"
  | deepITMCall  -- "Covered Call (Deep ITM)"
  | closestOTM   -- "Covered Call (Closest OTM / 'ATM')"
  | cspOTM       -- "Cash Secured Put (OTM/ATM)"
  | cspITM       -- "Cash Secured Put (ITM)"
deriving DecidableEq, Repr

/-- `is_put` from `_mode_flags`: the mode string starts with
"Cash Secured Put". -/
def isPut : Mode → Bool
  | .cspOTM => true
  | .cspITM => true
  | _ => false

/-- The sidebar configuration captured by the scan (the module-level
Streamlit values read by `scan`, `_mode_flags` and `_collateral_ok`). -/
structure Config where
  mode : Mode
  cushion : ℚ       -- cushion_val (Min ITM Cushion %)
  minOI : ℤ         -- min_oi
  goalAmt : ℚ       -- goal_amt
  acct : ℚ          -- acct (Account Value)
  cashAvail : ℚ     -- cash_avail
  autoDetect : Bool -- auto_detect
  sharesOwned : ℤ   -- shares_owned
  priceLo : ℚ       -- price_range[0]
  priceHi : ℚ       -- price_range[1]
  dteLo : ℤ         -- dte_range[0]
  dteHi : ℤ         -- dte_range[1]
  etfOnly : Bool    -- etf_only
  fSound : Bool     -- f_sound
deriving DecidableEq, Repr

/-- `_collateral_ok(is_put, needed, strike, price)` from
`juicebox_pro.py.py` lines 230–249.  Returns `(ok, coll_per, total)`. -/
def collateral_ok (cfg : Config) (is_put : Bool) (needed : ℤ)
    (strike price : ℚ) : Bool × ℚ × ℚ :=
  if is_put then
    let coll_per := strike * 100
    let total := needed * coll_per
    (decide (total ≤ cfg.cashAvail), coll_per, total)
  else
    let coll_per := price * 100
    let total := needed * coll_per
    if cfg.autoDetect && decide (0 < cfg.sharesOwned) then
      (decide (needed ≤ cfg.sharesOwned / 100), coll_per, total)
    else
      (decide (total ≤ cfg.acct), coll_per, total)

/-- First row with minimal value of `f`, modelling
`df.sort_values("strike").head(1)` (ascending sort then first row). -/
def argminBy (f : OptionRow → ℚ) : List OptionRow → Option OptionRow
  | [] => none
  | r :: rs =>
      match argminBy f rs with
      | none => some r
      | some m => if f r ≤ f m then some r else some m

/-- The per-mode strategy filter applied to one side of the chain,
`juicebox_pro.py.py` lines 327–339. -/
def strategyFilter (m : Mode) (price cushion : ℚ) (df : List OptionRow) :
    List OptionRow :=
  match m with
  | .deepITMCall => df.filter fun r => decide (r.strike ≤ price * (1 - cushion / 100))
  | .standardCC => df.filter fun r => decide (price < r.strike)
  | .closestOTM =>
      match argminBy OptionRow.strike
          (df.filter fun r => decide (price < r.strike)) with
      | none => []
      | some r => [r]
  | .cspOTM => df.filter fun r => decide (r.strike ≤ price)
  | .cspITM => df.filter fun r => decide (price * (1 + cushion / 100) ≤ r.strike)

/-- Intrinsic value per share, `juicebox_pro.py.py` line 359:
`max(0.0, price - strike) if not is_put else max(0.0, strike - price)`. -/
def intrinsicOf (m : Mode) (price : ℚ) (row : OptionRow) : ℚ :=
  if isPut m then max 0 (row.strike - price) else max 0 (price - row.strike)

/-- Extrinsic value per share, line 360: `max(0.0, total_prem - intrinsic)`
with `total_prem = mid_price(row)`. -/
def extrinsicOf (m : Mode) (price : ℚ) (row : OptionRow) : ℚ :=
  max 0 (mid_price row - intrinsicOf m price row)

/-- One accepted candidate, mirroring the `res` dict built in `scan`
(lines 410–430).  Fields suffixed `-- internal` record the loop's local
variables before display rounding (`juice_con`, `coll_total`, `total_ret`);
the dict exposes them only rounded or aggregated.  The presentation-only
string fields `Ticker` (ticker plus goal icon — its condition is kept as
`goalMet`), `RawT`, `Mode`, `Type` (quote type) and `Why` (the
`_qualify_text` sentence) are elided. -/
structure ScanResult where
  strikeF : ℚ        -- "Strike": round(strike, 2)
  priceF : ℚ         -- "Price": round(price, 2)
  exp : String       -- "Expiration"
  dte : ℤ            -- "DTE"
  oi : ℤ             -- "OI"
  extrinsicF : ℚ     -- "Extrinsic": round(extrinsic * 100, 2)
  intrinsicF : ℚ     -- "Intrinsic": round(intrinsic * 100, 2)
  totalPrem : ℚ      -- "Total Prem": round(total_prem * 100, 2)
  totalRetPct : ℚ    -- "Total Return %": round(total_ret, 2)
  contracts : ℤ      -- "Contracts": int(needed)
  totalJuice : ℚ     -- "Total Juice": round(juice_con * needed, 2)
  collateral : ℚ     -- "Collateral": round(coll_total, 0)
  gradeTxt : String  -- "Grade"
  gradeKey : String  -- "GradeKey"
  goalMet : Bool     -- the " 🎯" goal_met_icon condition: juice_con >= goal_amt
  juiceCon : ℚ       -- internal: juice_con = juice_val * 100
  collTotal : ℚ      -- internal: coll_total from _collateral_ok
  retRaw : ℚ         -- internal: total_ret before rounding
deriving DecidableEq, Repr

/-- The juice policy, `juicebox_pro.py.py` lines 362–372: Closest-OTM uses
the total premium; otherwise an ITM candidate (`intrinsic > 0`) with
`extrinsic <= 0.05` is skipped (`continue`, modelled as `none`), and the
juice is the extrinsic when ITM, else the total premium. -/
def juiceOf (m : Mode) (price : ℚ) (row : OptionRow) : Option ℚ :=
  if m = .closestOTM then some (mid_price row)
  else if 0 < intrinsicOf m price row ∧ extrinsicOf m price row ≤ 5 / 100 then
    none
  else some (if 0 < intrinsicOf m price row then extrinsicOf m price row
             else mid_price row)

/-- The body of the inner `for _, row in df.iterrows()` loop of `scan`
(lines 345–430): evaluates one filtered chain row, returning `none` on any
`continue` and the built result otherwise. -/
def evalRow (cfg : Config) (price : ℚ) (exp : String) (dte : ℤ)
    (row : OptionRow) : Option ScanResult :=
  let strike := row.strike
  if strike ≤ 0 then none else
  let total_prem := mid_price row
  let oi := row.openInterest
  if oi < cfg.minOI then none else
  if total_prem ≤ 0 then none else
  let intrinsic := intrinsicOf cfg.mode price row
  let extrinsic := extrinsicOf cfg.mode price row
  match juiceOf cfg.mode price row with
  | none => none
  | some juice_val =>
    let juice_con := juice_val * 100
    if juice_con ≤ 0 then none else
    let coll_base := if isPut cfg.mode then strike * 100 else price * 100
    if coll_base ≤ 0 then none else
    let total_ret := juice_con / coll_base * 100
    let needed : ℤ :=
      if 0 < cfg.goalAmt then max 1 ⌈cfg.goalAmt / juice_con⌉ else 1
    let c := collateral_ok cfg (isPut cfg.mode) needed strike price
    if c.1 = false then none else
    let g := grade_from_return total_ret
    some {
      strikeF := round2 strike
      priceF := round2 price
      exp := exp
      dte := dte
      oi := oi
      extrinsicF := round2 (extrinsic * 100)
      intrinsicF := round2 (intrinsic * 100)
      totalPrem := round2 (total_prem * 100)
      totalRetPct := round2 total_ret
      contracts := needed
      totalJuice := round2 (juice_con * needed)
      collateral := round0 c.2.2
      gradeTxt := g.1
      gradeKey := g.2
      goalMet := decide (cfg.goalAmt ≤ juice_con)
      juiceCon := juice_con
      collTotal := c.2.2
      retRaw := total_ret }

/-- One expiration as seen by `scan`'s outer loop: the date string, its
parsed days-to-expiry (`none` models a `strptime` failure, skipped by
`continue`) and the fetched chain (`none` models an `option_chain`
exception, also skipped). -/
structure ExpData where
  exp : String
  dte : Option ℤ
  chain : Option (List OptionRow × List OptionRow)  -- (calls, puts)
deriving DecidableEq, Repr

/-- Candidates contributed by one expiration: DTE-range check, side
selection, strategy filter, then per-row evaluation, in chain order
(lines 309–345). -/
def candidatesOfExp (cfg : Config) (price : ℚ) (ed : ExpData) :
    List ScanResult :=
  match ed.dte with
  | none => []
  | some dte =>
    if cfg.dteLo ≤ dte ∧ dte ≤ cfg.dteHi then
      match ed.chain with
      | none => []
      | some (calls, puts) =>
        let df := if isPut cfg.mode then puts else calls
        (strategyFilter cfg.mode price cfg.cushion df).filterMap
          (evalRow cfg price ed.exp dte)
    else []

/-- All candidates across the examined expirations, in loop order. -/
def allCandidates (cfg : Config) (price : ℚ) (opts : List ExpData) :
    List ScanResult :=
  opts.flatMap (candidatesOfExp cfg price)

/-- The `best` accumulator of `scan` (line 432): replace the current best
exactly when the new candidate's (rounded) "Total Return %" is strictly
greater. -/
def best_choice : Option ScanResult → List ScanResult → Option ScanResult
  | b, [] => b
  | b, r :: rs =>
      best_choice
        (match b with
         | none => some r
         | some b0 =>
             if b0.totalRetPct < r.totalRetPct then some r else some b0) rs

/-- The double loop of `scan` over expirations and rows, folded with the
best-so-far accumulator. -/
def scanBest (cfg : Config) (price : ℚ) (opts : List ExpData) :
    Option ScanResult :=
  best_choice none (allCandidates cfg price opts)

/-- The per-ticker diagnostic record (`diag`). -/
structure Diag where
  ticker : String
  killedBy : String
  detail : String
deriving DecidableEq, Repr

/-- Per-ticker data as fetched from the provider: quote type (already
defaulted to "EQUITY" by `info.get("quoteType", "EQUITY")`), fundamentals,
live price (`none` models an unavailable price) and the expirations list. -/
structure TickerData where
  quoteType : String
  trailingEps : Option ℚ       -- info.get("trailingEps"); none ⇒ safe_float default -1.0
  recommendationKey : Option String
  price : Option ℚ
  opts : List ExpData
deriving DecidableEq, Repr

/-- `rec in ["buy", "strong_buy", "hold"]` (a missing key is not in the
list). -/
def recOk : Option String → Bool
  | some r => r = "buy" || r = "strong_buy" || r = "hold"
  | none => false

/-- `scan(t)` from `juicebox_pro.py.py` lines 251–446, as a total function
of the fetched `TickerData`.  Every failure path returns `none` plus a
diagnostic with a non-empty `KilledBy`; success returns the best candidate
plus an empty-`KilledBy` diagnostic.  The source's outer `try/except`
(which turns any raised exception into a `KilledBy = "Exception"` diag)
has no counterpart because the embedded pipeline is total; it too returns
`(None, diag)` with a non-empty reason.  F-string `Detail` texts are
abbreviated. -/
def scan (cfg : Config) (t : String) (td : TickerData) :
    Option ScanResult × Diag :=
  if cfg.etfOnly ∧ td.quoteType ≠ "ETF" then
    (none, ⟨t, "ETF Only", "quoteType"⟩)
  else if cfg.fSound ∧ td.trailingEps.getD (-1) ≤ 0 then
    (none, ⟨t, "Fundamentals", "trailingEps"⟩)
  else if cfg.fSound ∧ recOk td.recommendationKey = false then
    (none, ⟨t, "Fundamentals", "recommendationKey"⟩)
  else
    match td.price with
    | none => (none, ⟨t, "No Price", "live price unavailable"⟩)
    | some price =>
      if price = 0 then (none, ⟨t, "No Price", "live price unavailable"⟩)
      else if ¬(cfg.priceLo ≤ price ∧ price ≤ cfg.priceHi) then
        (none, ⟨t, "Price Range", "price"⟩)
      else if td.opts = [] then
        (none, ⟨t, "No Options", "tk.options empty"⟩)
      else
        match scanBest cfg price td.opts with
        | none => (none, ⟨t, "No Match", "No contract passed filters"⟩)
        | some best => (some best, ⟨t, "", ""⟩)

/-- `scan_all(tickers_list)` lines 448–458.  `ThreadPoolExecutor.map`
preserves input order and each task contributes one `(result, diag)`
pair; the collection loop keeps `r` when it is not `None` and `d` when its
`KilledBy` is truthy (non-empty). -/
def scan_all (cfg : Config) (ts : List (String × TickerData)) :
    List ScanResult × List Diag :=
  let outs := ts.map fun p => scan cfg p.1 p.2
  (outs.filterMap Prod.fst,
   (outs.map Prod.snd).filter fun d => decide (d.killedBy ≠ ""))

/-! ## income_bot.py: the Deep Scanner loop and the probability model -/

/-- The `Strategy` selectbox of `income_bot.py`: "Cash-Secured Put" or
"Covered Call". -/
inductive IBStrategy
  | cashSecuredPut
  | coveredCall
deriving DecidableEq, Repr

/-- One option-chain row as consumed by the Deep Scanner (`income_bot.py`);
`ask` and `lastPrice` are present in the provider's rows but the Deep
Scanner itself only reads `strike`, `bid` and `impliedVolatility`. -/
structure IBRow where
  strike : ℚ
  bid : ℚ
  ask : Option ℚ
  lastPrice : Option ℚ
  impliedVolatility : Option ℚ
deriving DecidableEq, Repr

/-- Result of one accepted Deep Scanner candidate (`income_bot.py` lines
238–248), numeric fields only.  The "Win Prob" field (a formatted
percentage of `calculate_pop`) and the earnings annotation are
presentation and are modelled separately by `calculate_pop`. -/
structure IBResult where
  strike : ℚ    -- float(match["strike"])
  bid : ℚ       -- the bid used as premium
  qty : ℤ       -- "Contracts"
  income : ℚ    -- income_val = bid * 100 * qty
  returnPct : ℚ -- return_pct = income_val / capital * 100
deriving DecidableEq, Repr

/-- The per-expiration body of the Deep Scanner loop, `income_bot.py`
lines 213–248 (the outer price-range and 7..max_days DTE gates happen
before this block): strike filtering with the aggressiveness buffer,
`iloc[-1]`/`iloc[0]` match selection, the `bid > 0.05` liquidity gate,
contract sizing `ceil(weekly_target / (bid*100))` and the
`qty * strike * 100 <= capital` collateral gate (`ibEval` below).
The `match` selection of the Deep Scanner (`income_bot.py` lines
213–221): strike filter with the aggressiveness buffer, then `iloc[-1]`
(last row) for puts or `iloc[0]` (first row) for calls. -/
def ibMatch (strategy : IBStrategy) (aggressive : Bool)
    (capital price : ℚ) (rows : List IBRow) : Option IBRow :=
  let buffer : ℚ := if aggressive then 98/100 else 92/100
  if strategy = .cashSecuredPut then
    (rows.filter fun r =>
      decide (r.strike * 100 ≤ capital) && decide (r.strike < price * buffer)).getLast?
  else
    (rows.filter fun r =>
      decide (r.strike * 100 ≤ capital) && decide (price * (1 / buffer) < r.strike)).head?

def ibEval (strategy : IBStrategy) (aggressive : Bool)
    (capital weekly_target price : ℚ) (rows : List IBRow) : Option IBResult :=
  match ibMatch strategy aggressive capital price rows with
  | none => none
  | some m =>
    if 5/100 < m.bid then
      let qty : ℤ := ⌈weekly_target / (m.bid * 100)⌉
      if (qty : ℚ) * m.strike * 100 ≤ capital then
        some { strike := m.strike, bid := m.bid, qty := qty,
               income := m.bid * 100 * qty,
               returnPct := m.bid * 100 * qty / capital * 100 }
      else none
    else none

/-- Standard normal cumulative distribution function (`norm.cdf`). -/
noncomputable def normCdf (x : ℝ) : ℝ :=
  ProbabilityTheory.cdf (ProbabilityTheory.gaussianReal 0 1) x

/-- The `d2` expression of `calculate_pop` (`income_bot.py` line 126):
`(log(price/strike) + (-0.5*iv**2)*t) / (iv*sqrt(t))` with
`t = max(days, 1)/365`. -/
noncomputable def d2val (price strike : ℝ) (days : ℤ) (iv : ℝ) : ℝ :=
  let t : ℝ := ((max days 1 : ℤ) : ℝ) / 365
  (Real.log (price / strike) + (-0.5 * iv ^ 2) * t) / (iv * Real.sqrt t)

/-- `calculate_pop(price, strike, days, iv, strategy)` from
`income_bot.py` lines 121–128. -/
noncomputable def calculate_pop (price strike : ℝ) (days : ℤ) (iv : ℝ)
    (strategy : IBStrategy) : ℝ :=
  if iv ≤ 0 ∨ days ≤ 0 then 0.5
  else
    let prob_itm := normCdf (d2val price strike days iv)
    if strategy = .cashSecuredPut then 1 - prob_itm else prob_itm


/-! ## Helper lemmas -/

theorem argminBy_isSome (f : OptionRow → ℚ) :
    ∀ (l : List OptionRow), l ≠ [] → (argminBy f l).isSome := by
  intro l hl
  cases l with
  | nil => exact absurd rfl hl
  | cons r rs =>
    rw [argminBy]
    split
    · rfl
    · split <;> rfl

theorem argminBy_mem (f : OptionRow → ℚ) :
    ∀ (l : List OptionRow) (m : OptionRow), argminBy f l = some m → m ∈ l := by
  intro l
  induction l with
  | nil => intro m h; simp [argminBy] at h
  | cons r rs ih =>
    intro m h
    rw [argminBy] at h
    split at h
    · cases h; exact List.mem_cons_self _ _
    · rename_i m0 hrec
      split at h
      · cases h; exact List.mem_cons_self _ _
      · cases h; exact List.mem_cons_of_mem _ (ih _ hrec)

theorem argminBy_le (f : OptionRow → ℚ) :
    ∀ (l : List OptionRow) (m : OptionRow), argminBy f l = some m →
      ∀ c ∈ l, f m ≤ f c := by
  intro l
  induction l with
  | nil => intro m h; simp [argminBy] at h
  | cons r rs ih =>
    intro m h c hc
    rw [argminBy] at h
    split at h
    · rename_i hrec
      cases h
      rcases List.mem_cons.mp hc with rfl | hc'
      · exact le_refl _
      · have hs := argminBy_isSome f rs (by rintro rfl; simp at hc')
        rw [hrec] at hs
        simp at hs
    · rename_i m0 hrec
      rcases List.mem_cons.mp hc with rfl | hc'
      · split at h
        · cases h; exact le_refl _
        · rename_i hnle
          cases h
          exact le_of_lt (lt_of_not_le hnle)
      · split at h
        · rename_i hle
          cases h
          exact le_trans hle (ih _ hrec _ hc')
        · cases h
          exact ih _ hrec _ hc'

/-- Membership in the Closest-OTM filter output forces `price < strike`
and minimality among the strictly-OTM strikes of the chain. -/
theorem strategyFilter_closestOTM_mem (price cushion : ℚ)
    (df : List OptionRow) (r : OptionRow)
    (h : r ∈ strategyFilter .closestOTM price cushion df) :
    r ∈ df ∧ price < r.strike ∧
      ∀ c ∈ df, price < c.strike → r.strike ≤ c.strike := by
  simp only [strategyFilter] at h
  split at h
  · simp at h
  · rename_i m hmin
    rcases List.mem_singleton.mp h with rfl
    have hmem := argminBy_mem _ _ _ hmin
    have hmf := List.mem_filter.mp hmem
    refine ⟨hmf.1, of_decide_eq_true hmf.2, ?_⟩
    intro c hc hcs
    exact argminBy_le _ _ _ hmin c
      (List.mem_filter.mpr ⟨hc, decide_eq_true hcs⟩)


/-! ## C3: the "ATM" covered-call selector -/

def c3RowBelow : OptionRow := ⟨99, some 1, some 1, none, 1000⟩
def c3RowAbove : OptionRow := ⟨102, some 1, some 1, none, 1000⟩

/-- C3 counterexample: at price 100 with chain strikes 99 and 102, the
Closest-OTM ("ATM") selector keeps only the strike-102 row, although the
strike-99 row minimizes `|strike - price|` and lies below the price.  So
the selector does apply a strike-side filter (`strike > price`) and does
not return the `|strike - price|` minimizer of the chain. -/
theorem C3_atm_counterexample :
    strategyFilter Mode.closestOTM 100 0 [c3RowBelow, c3RowAbove]
        = [c3RowAbove] ∧
    |c3RowBelow.strike - 100| < |c3RowAbove.strike - 100| ∧
    c3RowBelow.strike < 100 := by
  refine ⟨?_, ?_, by norm_num [c3RowBelow]⟩
  · norm_num [strategyFilter, argminBy, List.filter_cons, c3RowBelow,
      c3RowAbove]
  · have h1 : |c3RowBelow.strike - 100| = 1 := by
      rw [show c3RowBelow.strike = 99 from rfl, abs_of_nonpos (by norm_num)]
      norm_num
    have h2 : |c3RowAbove.strike - 100| = 2 := by
      rw [show c3RowAbove.strike = 102 from rfl, abs_of_nonneg (by norm_num)]
      norm_num
    rw [h1, h2]
    norm_num

/-- C3 amended: under the Closest-OTM ("ATM") strategy the selector
filters the chain to strikes strictly above the price and returns the
lowest such strike; a strike at or below the price is never returned, and
whenever the chain has some strike above the price the selection is
non-empty. -/
theorem C3_closest_otm_amended (price cushion : ℚ) (df : List OptionRow) :
    (∀ r ∈ strategyFilter Mode.closestOTM price cushion df,
        r ∈ df ∧ price < r.strike ∧
          ∀ c ∈ df, price < c.strike → r.strike ≤ c.strike) ∧
    ((∃ c ∈ df, price < c.strike) →
        strategyFilter Mode.closestOTM price cushion df ≠ []) := by
  constructor
  · intro r hr
    exact strategyFilter_closestOTM_mem price cushion df r hr
  · rintro ⟨c, hc, hcs⟩
    simp only [strategyFilter]
    have hne : df.filter (fun x => decide (price < x.strike)) ≠ [] := by
      intro hnil
      have hm : c ∈ df.filter (fun x => decide (price < x.strike)) :=
        List.mem_filter.mpr ⟨hc, decide_eq_true hcs⟩
      rw [hnil] at hm
      simp at hm
    have hs := argminBy_isSome OptionRow.strike _ hne
    split
    · rename_i hmin
      rw [hmin] at hs
      simp at hs
    · simp

theorem C3_closest_otm_amended_witness :
    (c3RowAbove ∈ strategyFilter Mode.closestOTM 100 0
        [c3RowBelow, c3RowAbove] →
      (c3RowAbove ∈ [c3RowBelow, c3RowAbove] ∧ (100 : ℚ) < c3RowAbove.strike ∧
        ∀ c ∈ [c3RowBelow, c3RowAbove], 100 < c.strike →
          c3RowAbove.strike ≤ c.strike)) ∧
    strategyFilter Mode.closestOTM 100 0 [c3RowBelow, c3RowAbove] ≠ [] :=
  ⟨fun hr => (C3_closest_otm_amended 100 0 [c3RowBelow, c3RowAbove]).1
      c3RowAbove hr,
   (C3_closest_otm_amended 100 0 [c3RowBelow, c3RowAbove]).2
      ⟨c3RowAbove, by norm_num [c3RowAbove], by norm_num [c3RowAbove]⟩⟩

/-! ## The evalRow destructuring lemma -/

theorem juiceOf_eq_some (m : Mode) (price : ℚ) (row : OptionRow) (jv : ℚ)
    (h : juiceOf m price row = some jv) :
    (m = .closestOTM → jv = mid_price row) ∧
    (m ≠ .closestOTM →
      (0 < intrinsicOf m price row →
          ¬ extrinsicOf m price row ≤ 5 / 100 ∧
          jv = extrinsicOf m price row) ∧
      (¬ 0 < intrinsicOf m price row → jv = mid_price row)) := by
  unfold juiceOf at h
  by_cases hm : m = .closestOTM
  · rw [if_pos hm, Option.some_inj] at h
    exact ⟨fun _ => h.symm, fun hc => absurd hm hc⟩
  · rw [if_neg hm] at h
    by_cases htrap : 0 < intrinsicOf m price row ∧
        extrinsicOf m price row ≤ 5 / 100
    · rw [if_pos htrap] at h
      exact absurd h (by simp)
    · rw [if_neg htrap, Option.some_inj] at h
      refine ⟨fun hc => absurd hc hm, fun _ => ⟨?_, ?_⟩⟩
      · intro hi
        refine ⟨fun he => htrap ⟨hi, he⟩, ?_⟩
        rw [← h, if_pos hi]
      · intro hi
        rw [← h, if_neg hi]

theorem juiceOf_trap (m : Mode) (price : ℚ) (row : OptionRow)
    (hm : m ≠ .closestOTM) (hi : 0 < intrinsicOf m price row)
    (he : extrinsicOf m price row ≤ 5 / 100) :
    juiceOf m price row = none := by
  unfold juiceOf
  rw [if_neg hm, if_pos ⟨hi, he⟩]

theorem evalRow_none_of_juiceOf_none (cfg : Config) (price : ℚ)
    (exp : String) (dte : ℤ) (row : OptionRow)
    (h : juiceOf cfg.mode price row = none) :
    evalRow cfg price exp dte row = none := by
  simp only [evalRow, h]
  split_ifs <;> rfl

/-- Everything an accepted candidate records, extracted from
`evalRow ... = some res`: the positivity guards that were passed, the
juice value actually used, the sizing formula, the grade inputs and the
collateral data. -/
theorem evalRow_spec (cfg : Config) (price : ℚ) (exp : String) (dte : ℤ)
    (row : OptionRow) (res : ScanResult)
    (h : evalRow cfg price exp dte row = some res) :
    0 < row.strike ∧
    cfg.minOI ≤ row.openInterest ∧
    0 < mid_price row ∧
    0 < res.juiceCon ∧
    juiceOf cfg.mode price row = some (res.juiceCon / 100) ∧
    res.contracts =
      (if 0 < cfg.goalAmt then max 1 ⌈cfg.goalAmt / res.juiceCon⌉ else 1) ∧
    res.retRaw = res.juiceCon /
      (if isPut cfg.mode then row.strike * 100 else price * 100) * 100 ∧
    res.totalRetPct = round2 res.retRaw ∧
    res.gradeTxt = (grade_from_return res.retRaw).1 ∧
    res.gradeKey = (grade_from_return res.retRaw).2 ∧
    res.totalPrem = round2 (mid_price row * 100) ∧
    res.strikeF = round2 row.strike ∧
    (collateral_ok cfg (isPut cfg.mode) res.contracts row.strike price).1
        = true ∧
    res.collTotal =
      (collateral_ok cfg (isPut cfg.mode) res.contracts row.strike price).2.2 ∧
    res.collateral = round0 res.collTotal := by
  simp only [evalRow] at h
  by_cases h1 : row.strike ≤ 0
  · rw [if_pos h1] at h
    exact absurd h (by simp)
  rw [if_neg h1] at h
  by_cases h2 : row.openInterest < cfg.minOI
  · rw [if_pos h2] at h
    exact absurd h (by simp)
  rw [if_neg h2] at h
  by_cases h3 : mid_price row ≤ 0
  · rw [if_pos h3] at h
    exact absurd h (by simp)
  rw [if_neg h3] at h
  cases hjo : juiceOf cfg.mode price row with
  | none =>
    rw [hjo] at h
    exact absurd h (by simp)
  | some jv =>
    rw [hjo] at h
    simp only [] at h
    by_cases h4 : jv * 100 ≤ 0
    · rw [if_pos h4] at h
      exact absurd h (by simp)
    rw [if_neg h4] at h
    by_cases h5 : (if isPut cfg.mode then row.strike * 100 else price * 100) ≤ 0
    · rw [if_pos h5] at h
      exact absurd h (by simp)
    rw [if_neg h5] at h
    by_cases h6 : (collateral_ok cfg (isPut cfg.mode)
        (if 0 < cfg.goalAmt then max 1 ⌈cfg.goalAmt / (jv * 100)⌉ else 1)
        row.strike price).1 = false
    · rw [if_pos h6] at h
      exact absurd h (by simp)
    rw [if_neg h6] at h
    rw [Option.some_inj] at h
    subst h
    refine ⟨lt_of_not_le h1, le_of_not_lt h2, lt_of_not_le h3,
      lt_of_not_le h4, ?_, rfl, rfl, rfl, rfl, rfl, rfl, rfl, ?_, rfl, rfl⟩
    · norm_num
    · cases hb : (collateral_ok cfg (isPut cfg.mode)
          (if 0 < cfg.goalAmt then max 1 ⌈cfg.goalAmt / (jv * 100)⌉ else 1)
          row.strike price).1
      · exact absurd hb h6
      · rfl

theorem intrinsicOf_nonneg (m : Mode) (price : ℚ) (row : OptionRow) :
    0 ≤ intrinsicOf m price row := by
  rw [intrinsicOf]
  split <;> exact le_max_left _ _

theorem intrinsic_call_otm (m : Mode) (price : ℚ) (row : OptionRow)
    (hput : isPut m = false) (hs : price ≤ row.strike) :
    intrinsicOf m price row = 0 := by
  rw [intrinsicOf, hput]
  norm_num
  linarith

theorem intrinsic_put_otm (m : Mode) (price : ℚ) (row : OptionRow)
    (hput : isPut m = true) (hs : row.strike ≤ price) :
    intrinsicOf m price row = 0 := by
  rw [intrinsicOf, hput]
  norm_num
  linarith

theorem extrinsic_eq_prem (m : Mode) (price : ℚ) (row : OptionRow)
    (hi : intrinsicOf m price row = 0) (hp : 0 ≤ mid_price row) :
    extrinsicOf m price row = mid_price row := by
  rw [extrinsicOf, hi, sub_zero]
  exact max_eq_right hp

/-! ## C1: the juice policy keyed by strategy variant -/

/-- C1: the income metric is a fixed policy keyed by strategy variant.
For a candidate admitted by the strategy filter: under Deep ITM Covered
Call and Cash Secured Put (ITM), an accepted result's `juice_con`
(juice per contract) equals the extrinsic value (× 100 per-contract);
under Standard OTM Call, Closest-OTM ("ATM") Call and Cash Secured Put
(OTM), it equals the full premium (× 100); and an ITM candidate
(`intrinsic > 0`) whose extrinsic is at most the 0.05 epsilon is rejected
(the row evaluates to `none`). -/
theorem C1_juice_policy (cfg : Config) (price : ℚ) (exp : String) (dte : ℤ)
    (df : List OptionRow) (row : OptionRow)
    (hrow : row ∈ strategyFilter cfg.mode price cfg.cushion df) :
    ((cfg.mode = Mode.deepITMCall ∨ cfg.mode = Mode.cspITM) →
      ∀ res, evalRow cfg price exp dte row = some res →
        res.juiceCon = extrinsicOf cfg.mode price row * 100) ∧
    ((cfg.mode = Mode.standardCC ∨ cfg.mode = Mode.closestOTM ∨
        cfg.mode = Mode.cspOTM) →
      ∀ res, evalRow cfg price exp dte row = some res →
        res.juiceCon = mid_price row * 100) ∧
    (0 < intrinsicOf cfg.mode price row →
      extrinsicOf cfg.mode price row ≤ 5 / 100 →
      evalRow cfg price exp dte row = none) := by
  refine ⟨?_, ?_, ?_⟩
  · intro hm res h
    have spec := evalRow_spec cfg price exp dte row res h
    have hprem := spec.2.2.1
    have hjo := spec.2.2.2.2.1
    have js := juiceOf_eq_some _ _ _ _ hjo
    have hne : cfg.mode ≠ Mode.closestOTM := by
      rcases hm with hm | hm <;> rw [hm] <;> intro hc <;> exact Mode.noConfusion hc
    by_cases hi : 0 < intrinsicOf cfg.mode price row
    · have := ((js.2 hne).1 hi).2
      rw [div_eq_iff (by norm_num : (100 : ℚ) ≠ 0)] at this
      exact this
    · have h0 : intrinsicOf cfg.mode price row = 0 :=
        le_antisymm (not_lt.mp hi) (intrinsicOf_nonneg _ _ _)
      have := (js.2 hne).2 hi
      rw [div_eq_iff (by norm_num : (100 : ℚ) ≠ 0)] at this
      rw [extrinsic_eq_prem _ _ _ h0 (le_of_lt hprem)]
      exact this
  · intro hm res h
    have spec := evalRow_spec cfg price exp dte row res h
    have hprem := spec.2.2.1
    have hjo := spec.2.2.2.2.1
    have js := juiceOf_eq_some _ _ _ _ hjo
    rcases hm with hm | hm | hm
    · have h0 : intrinsicOf cfg.mode price row = 0 := by
        rw [hm] at hrow ⊢
        simp only [strategyFilter, List.mem_filter, decide_eq_true_eq] at hrow
        exact intrinsic_call_otm _ _ _ rfl (le_of_lt hrow.2)
      have hne : cfg.mode ≠ Mode.closestOTM := by
        rw [hm]; intro hc; exact Mode.noConfusion hc
      have := (js.2 hne).2 (by rw [h0]; norm_num)
      rw [div_eq_iff (by norm_num : (100 : ℚ) ≠ 0)] at this
      exact this
    · have := js.1 hm
      rw [div_eq_iff (by norm_num : (100 : ℚ) ≠ 0)] at this
      exact this
    · have h0 : intrinsicOf cfg.mode price row = 0 := by
        rw [hm] at hrow ⊢
        simp only [strategyFilter, List.mem_filter, decide_eq_true_eq] at hrow
        exact intrinsic_put_otm _ _ _ rfl hrow.2
      have hne : cfg.mode ≠ Mode.closestOTM := by
        rw [hm]; intro hc; exact Mode.noConfusion hc
      have := (js.2 hne).2 (by rw [h0]; norm_num)
      rw [div_eq_iff (by norm_num : (100 : ℚ) ≠ 0)] at this
      exact this
  · intro hi he
    by_cases hm : cfg.mode = Mode.closestOTM
    · exfalso
      rw [hm] at hrow
      have hmem := strategyFilter_closestOTM_mem _ _ _ _ hrow
      have h0 : intrinsicOf cfg.mode price row = 0 := by
        rw [hm]
        exact intrinsic_call_otm _ _ _ rfl (le_of_lt hmem.2.1)
      rw [h0] at hi
      exact lt_irrefl 0 hi
    · exact evalRow_none_of_juiceOf_none cfg price exp dte row
        (juiceOf_trap _ _ _ hm hi he)

def c1Cfg : Config :=
  { mode := Mode.deepITMCall, cushion := 10, minOI := 0, goalAmt := 150,
    acct := 1000000, cashAvail := 0, autoDetect := false, sharesOwned := 0,
    priceLo := 1, priceHi := 500, dteLo := 0, dteHi := 30,
    etfOnly := false, fSound := false }

def c1Row : OptionRow := ⟨90, some 12, some 12, none, 1000⟩

theorem C1_juice_policy_witness :
    c1Row ∈ strategyFilter c1Cfg.mode 100 c1Cfg.cushion [c1Row] ∧
    (((c1Cfg.mode = Mode.deepITMCall ∨ c1Cfg.mode = Mode.cspITM) →
        ∀ res, evalRow c1Cfg 100 "2026-01-16" 7 c1Row = some res →
          res.juiceCon = extrinsicOf c1Cfg.mode 100 c1Row * 100) ∧
     ((c1Cfg.mode = Mode.standardCC ∨ c1Cfg.mode = Mode.closestOTM ∨
          c1Cfg.mode = Mode.cspOTM) →
        ∀ res, evalRow c1Cfg 100 "2026-01-16" 7 c1Row = some res →
          res.juiceCon = mid_price c1Row * 100) ∧
     (0 < intrinsicOf c1Cfg.mode 100 c1Row →
        extrinsicOf c1Cfg.mode 100 c1Row ≤ 5 / 100 →
        evalRow c1Cfg 100 "2026-01-16" 7 c1Row = none)) :=
  ⟨by norm_num [c1Cfg, c1Row, strategyFilter, List.mem_filter],
   C1_juice_policy c1Cfg 100 "2026-01-16" 7 [c1Row] c1Row
     (by norm_num [c1Cfg, c1Row, strategyFilter, List.mem_filter])⟩

/-! ## C10: the grade policy -/

def c10Cfg : Config :=
  { mode := Mode.standardCC, cushion := 0, minOI := 0, goalAmt := 150,
    acct := 1000000, cashAvail := 0, autoDetect := false, sharesOwned := 0,
    priceLo := 1, priceHi := 500, dteLo := 0, dteHi := 30,
    etfOnly := false, fSound := false }

def c10RowB : OptionRow := ⟨101, some (749/250), some (749/250), none, 1000⟩
def c10RowA : OptionRow := ⟨102, some 3, some 3, none, 1000⟩

def c10ResB : ScanResult :=
  { strikeF := 101, priceF := 100, exp := "e", dte := 7, oi := 1000,
    extrinsicF := 1498/5, intrinsicF := 0, totalPrem := 1498/5,
    totalRetPct := 3, contracts := 1, totalJuice := 1498/5,
    collateral := 10000, gradeTxt := "🟡 B", gradeKey := "b",
    goalMet := true, juiceCon := 1498/5, collTotal := 10000,
    retRaw := 749/250 }

def c10ResA : ScanResult :=
  { strikeF := 102, priceF := 100, exp := "e", dte := 7, oi := 1000,
    extrinsicF := 300, intrinsicF := 0, totalPrem := 300,
    totalRetPct := 3, contracts := 1, totalJuice := 300,
    collateral := 10000, gradeTxt := "🟢 A", gradeKey := "a",
    goalMet := true, juiceCon := 300, collTotal := 10000,
    retRaw := 3 }

theorem c10B_eval : evalRow c10Cfg 100 "e" 7 c10RowB = some c10ResB := by
  have hc : (⌈(375 : ℚ) / 749⌉ : ℤ) = 1 := by
    rw [Int.ceil_eq_iff]
    norm_num
  norm_num [evalRow, juiceOf, mid_price, intrinsicOf, extrinsicOf, isPut,
    collateral_ok, grade_from_return, round2, round0, c10Cfg, c10RowB,
    c10ResB, hc]

theorem c10A_eval : evalRow c10Cfg 100 "e" 7 c10RowA = some c10ResA := by
  have hc : (⌈(1 : ℚ) / 2⌉ : ℤ) = 1 := by
    rw [Int.ceil_eq_iff]
    norm_num
  norm_num [evalRow, juiceOf, mid_price, intrinsicOf, extrinsicOf, isPut,
    collateral_ok, grade_from_return, round2, round0, c10Cfg, c10RowA,
    c10ResA, hc]

/-- C10 counterexample: two accepted results under the same configuration
(price 100, Standard OTM mode) carry the same stored "Total Return %"
field (3.00, because the field is `round(total_ret, 2)` and 2.996 rounds
to 3.00) but different grades ("🟡 B" vs "🟢 A", because the grade is
computed from the unrounded `total_ret`).  Hence the grade field is not a
function of the result's Total Return % field. -/
theorem C10_grade_counterexample :
    evalRow c10Cfg 100 "e" 7 c10RowB = some c10ResB ∧
    evalRow c10Cfg 100 "e" 7 c10RowA = some c10ResA ∧
    c10ResB.totalRetPct = c10ResA.totalRetPct ∧
    c10ResB.gradeTxt ≠ c10ResA.gradeTxt :=
  ⟨c10B_eval, c10A_eval, rfl, by decide⟩

/-- C10 amended: the grade of every accepted result is a pure function of
the unrounded total-return percentage `total_ret` (recorded as `retRaw`),
not of the rounded "Total Return %" field: it is "🟢 A" iff
`total_ret ≥ 3.0`, "🟡 B" iff `1.5 ≤ total_ret < 3.0` and "🔴 C"
otherwise; no other input affects it. -/
theorem C10_grade_amended :
    (∀ cfg price exp dte row res, evalRow cfg price exp dte row = some res →
        res.gradeTxt = (grade_from_return res.retRaw).1) ∧
    (∀ r : ℚ,
        ((grade_from_return r).1 = "🟢 A" ↔ 3 ≤ r) ∧
        ((grade_from_return r).1 = "🟡 B" ↔ 3 / 2 ≤ r ∧ r < 3) ∧
        ((grade_from_return r).1 = "🔴 C" ↔ r < 3 / 2)) := by
  constructor
  · intro cfg price exp dte row res h
    exact (evalRow_spec cfg price exp dte row res h).2.2.2.2.2.2.2.2.1
  · intro r
    unfold grade_from_return
    split_ifs with h1 h2
    · exact ⟨⟨fun _ => h1, fun _ => rfl⟩,
        ⟨fun hs => absurd hs (by decide), fun hr => absurd h1 (not_le.mpr hr.2)⟩,
        ⟨fun hs => absurd hs (by decide), fun hr => absurd hr (not_lt.mpr (by linarith))⟩⟩
    · exact ⟨⟨fun hs => absurd hs (by decide), fun hr => absurd hr h1⟩,
        ⟨fun _ => ⟨h2, lt_of_not_le h1⟩, fun _ => rfl⟩,
        ⟨fun hs => absurd hs (by decide), fun hr => absurd h2 (not_le.mpr hr)⟩⟩
    · exact ⟨⟨fun hs => absurd hs (by decide), fun hr => absurd hr h1⟩,
        ⟨fun hs => absurd hs (by decide), fun hr => absurd hr.1 h2⟩,
        ⟨fun _ => lt_of_not_le h2, fun _ => rfl⟩⟩

theorem C10_grade_amended_witness :
    (evalRow c10Cfg 100 "e" 7 c10RowB = some c10ResB →
      c10ResB.gradeTxt = (grade_from_return c10ResB.retRaw).1) ∧
    c10ResB.gradeTxt = (grade_from_return c10ResB.retRaw).1 ∧
    ((grade_from_return 2).1 = "🟡 B" ↔ 3 / 2 ≤ (2 : ℚ) ∧ (2 : ℚ) < 3) :=
  ⟨C10_grade_amended.1 c10Cfg 100 "e" 7 c10RowB c10ResB,
   C10_grade_amended.1 c10Cfg 100 "e" 7 c10RowB c10ResB c10B_eval,
   (C10_grade_amended.2 2).2.1⟩

/-! ## C6: contract sizing -/

theorem ibEval_spec (strategy : IBStrategy) (aggressive : Bool)
    (capital wt price : ℚ) (rows : List IBRow) (r : IBResult)
    (h : ibEval strategy aggressive capital wt price rows = some r) :
    5 / 100 < r.bid ∧
    r.qty = ⌈wt / (r.bid * 100)⌉ ∧
    r.income = r.bid * 100 * r.qty ∧
    r.returnPct = r.bid * 100 * r.qty / capital * 100 ∧
    (r.qty : ℚ) * r.strike * 100 ≤ capital := by
  unfold ibEval at h
  cases hm : ibMatch strategy aggressive capital price rows with
  | none =>
    rw [hm] at h
    exact absurd h (by simp)
  | some m =>
    rw [hm] at h
    simp only [] at h
    by_cases h1 : 5 / 100 < m.bid
    · rw [if_pos h1] at h
      by_cases h2 : (⌈wt / (m.bid * 100)⌉ : ℚ) * m.strike * 100 ≤ capital
      · rw [if_pos h2] at h
        rw [Option.some_inj] at h
        subst h
        exact ⟨h1, rfl, rfl, rfl, h2⟩
      · rw [if_neg h2] at h
        exact absurd h (by simp)
    · rw [if_neg h1] at h
      exact absurd h (by simp)

/-- C6: for every accepted JuiceBox candidate,
`contracts = max(1, ceil(goal_amt / juice_con))` (so `contracts ≥ 1` even
when one contract's juice already exceeds the goal), and for every
accepted Deep Scanner candidate with a positive weekly target,
`qty = ceil(weekly_target / (bid*100)) = max(1, ceil(...)) ≥ 1`. -/
theorem C6_contracts_needed :
    (∀ cfg price exp dte row res, evalRow cfg price exp dte row = some res →
        res.contracts = max 1 ⌈cfg.goalAmt / res.juiceCon⌉ ∧
        1 ≤ res.contracts) ∧
    (∀ strategy aggressive capital wt price rows r, 0 < wt →
        ibEval strategy aggressive capital wt price rows = some r →
        r.qty = max 1 ⌈wt / (r.bid * 100)⌉ ∧ 1 ≤ r.qty) := by
  constructor
  · intro cfg price exp dte row res h
    have spec := evalRow_spec cfg price exp dte row res h
    have hjc := spec.2.2.2.1
    have hcon := spec.2.2.2.2.2.1
    by_cases hg : 0 < cfg.goalAmt
    · rw [if_pos hg] at hcon
      exact ⟨hcon, hcon ▸ le_max_left _ _⟩
    · rw [if_neg hg] at hcon
      have hle : ⌈cfg.goalAmt / res.juiceCon⌉ ≤ 1 := by
        have : cfg.goalAmt / res.juiceCon ≤ 0 :=
          div_nonpos_of_nonpos_of_nonneg (not_lt.mp hg) (le_of_lt hjc)
        calc ⌈cfg.goalAmt / res.juiceCon⌉ ≤ ⌈(0 : ℚ)⌉ :=
              Int.ceil_le_ceil this
          _ ≤ 1 := by norm_num
      rw [hcon, max_eq_left hle]
      exact ⟨rfl, le_refl 1⟩
  · intro strategy aggressive capital wt price rows r hwt h
    have spec := ibEval_spec strategy aggressive capital wt price rows r h
    have hbid := spec.1
    have hqty := spec.2.1
    have hpos : 0 < wt / (r.bid * 100) :=
      div_pos hwt (by positivity)
    have h1 : 1 ≤ ⌈wt / (r.bid * 100)⌉ := Int.ceil_pos.mpr hpos
    rw [hqty, max_eq_right h1]
    exact ⟨rfl, h1⟩

def c6Row : OptionRow := ⟨101, some 3, some 3, none, 1000⟩

def c6IBRow : IBRow := ⟨40, 1, some 2, none, none⟩

theorem C6_contracts_needed_witness :
    (∀ res, evalRow c10Cfg 100 "e" 7 c6Row = some res →
        res.contracts = max 1 ⌈c10Cfg.goalAmt / res.juiceCon⌉ ∧
        1 ≤ res.contracts) ∧
    (0 < (150 : ℚ)) ∧
    (∀ r, ibEval IBStrategy.cashSecuredPut false 10000 150 50 [c6IBRow]
          = some r →
        r.qty = max 1 ⌈(150 : ℚ) / (r.bid * 100)⌉ ∧ 1 ≤ r.qty) :=
  ⟨fun res h => C6_contracts_needed.1 c10Cfg 100 "e" 7 c6Row res h,
   by norm_num,
   fun r h => C6_contracts_needed.2 IBStrategy.cashSecuredPut false
     10000 150 50 [c6IBRow] r (by norm_num) h⟩

/-! ## C4: collateral checks -/

theorem collateral_ok_put (cfg : Config) (needed : ℤ) (strike price : ℚ) :
    collateral_ok cfg true needed strike price =
      (decide ((needed : ℚ) * (strike * 100) ≤ cfg.cashAvail), strike * 100,
       (needed : ℚ) * (strike * 100)) := rfl

theorem collateral_ok_call_shares (cfg : Config) (needed : ℤ)
    (strike price : ℚ)
    (hsh : (cfg.autoDetect && decide (0 < cfg.sharesOwned)) = true) :
    collateral_ok cfg false needed strike price =
      (decide (needed ≤ cfg.sharesOwned / 100), price * 100,
       (needed : ℚ) * (price * 100)) := by
  unfold collateral_ok
  rw [if_neg (by simp), if_pos hsh]

theorem collateral_ok_call_acct (cfg : Config) (needed : ℤ)
    (strike price : ℚ)
    (hsh : ¬ (cfg.autoDetect && decide (0 < cfg.sharesOwned)) = true) :
    collateral_ok cfg false needed strike price =
      (decide ((needed : ℚ) * (price * 100) ≤ cfg.acct), price * 100,
       (needed : ℚ) * (price * 100)) := by
  unfold collateral_ok
  rw [if_neg (by simp), if_neg hsh]

/-- C4 amended: for every accepted candidate,
`coll_total = contracts * (strike*100)` and `coll_total ≤ cash_avail` for
cash-secured puts; for covered calls `coll_total = contracts * (price*100)`
and, when the auto-detect/shares branch is NOT taken, `coll_total ≤ acct`
(the account capital) — but when auto-detect is on and shares are owned,
the check is `contracts ≤ shares_owned // 100` instead, and the accepted
collateral may exceed the account value (see the counterexample).  In
every branch a failing candidate is skipped outright: `contracts` always
equals the sizing formula, never a down-sized count. -/
theorem C4_collateral_amended (cfg : Config) (price : ℚ) (exp : String)
    (dte : ℤ) (row : OptionRow) (res : ScanResult)
    (h : evalRow cfg price exp dte row = some res) :
    (isPut cfg.mode = true →
        res.collTotal = (res.contracts : ℚ) * (row.strike * 100) ∧
        res.collTotal ≤ cfg.cashAvail) ∧
    (isPut cfg.mode = false →
        res.collTotal = (res.contracts : ℚ) * (price * 100) ∧
        (¬(cfg.autoDetect = true ∧ 0 < cfg.sharesOwned) →
            res.collTotal ≤ cfg.acct) ∧
        (cfg.autoDetect = true → 0 < cfg.sharesOwned →
            res.contracts ≤ cfg.sharesOwned / 100)) ∧
    res.contracts =
      (if 0 < cfg.goalAmt then max 1 ⌈cfg.goalAmt / res.juiceCon⌉ else 1) := by
  have spec := evalRow_spec cfg price exp dte row res h
  have hcon := spec.2.2.2.2.2.1
  have hok := spec.2.2.2.2.2.2.2.2.2.2.2.2.1
  have hct := spec.2.2.2.2.2.2.2.2.2.2.2.2.2.1
  refine ⟨?_, ?_, hcon⟩
  · intro hput
    rw [hput, collateral_ok_put] at hok hct
    exact ⟨hct, hct ▸ of_decide_eq_true hok⟩
  · intro hput
    rw [hput] at hok hct
    by_cases hsh : (cfg.autoDetect && decide (0 < cfg.sharesOwned)) = true
    · rw [collateral_ok_call_shares cfg res.contracts row.strike price hsh]
        at hok hct
      refine ⟨hct, ?_, fun _ _ => of_decide_eq_true hok⟩
      intro hns
      exfalso
      rw [Bool.and_eq_true, decide_eq_true_eq] at hsh
      exact hns hsh
    · rw [collateral_ok_call_acct cfg res.contracts row.strike price hsh]
        at hok hct
      refine ⟨hct, fun _ => hct ▸ of_decide_eq_true hok, ?_⟩
      intro hAD hSO
      exfalso
      exact hsh (by rw [Bool.and_eq_true, decide_eq_true_eq]; exact ⟨hAD, hSO⟩)

def c4Cfg : Config :=
  { mode := Mode.standardCC, cushion := 0, minOI := 0, goalAmt := 4000,
    acct := 1000, cashAvail := 0, autoDetect := true, sharesOwned := 2000,
    priceLo := 1, priceHi := 500, dteLo := 0, dteHi := 30,
    etfOnly := false, fSound := false }

def c4Row : OptionRow := ⟨55, some 2, some 2, none, 1000⟩

def c4Res : ScanResult :=
  { strikeF := 55, priceF := 50, exp := "e", dte := 7, oi := 1000,
    extrinsicF := 200, intrinsicF := 0, totalPrem := 200,
    totalRetPct := 4, contracts := 20, totalJuice := 4000,
    collateral := 100000, gradeTxt := "🟢 A", gradeKey := "a",
    goalMet := false, juiceCon := 200, collTotal := 100000,
    retRaw := 4 }

theorem c4_eval : evalRow c4Cfg 50 "e" 7 c4Row = some c4Res := by
  have hc : (⌈(20 : ℚ)⌉ : ℤ) = 20 := by
    rw [Int.ceil_eq_iff]
    norm_num
  norm_num [evalRow, juiceOf, mid_price, intrinsicOf, extrinsicOf, isPut,
    collateral_ok, grade_from_return, round2, round0, c4Cfg, c4Row,
    c4Res, hc]

/-- C4 counterexample: under Covered Call (Standard OTM) with auto-detect
on and 2000 shares owned, this candidate is accepted (20 contracts ≤
2000 // 100) although its total collateral, 20 × 50 × 100 = 100000,
exceeds both the account value (1000) and the cash available (0).  So an
accepted result's `totalCollateral ≤ capital` does not hold in general. -/
theorem C4_collateral_counterexample :
    evalRow c4Cfg 50 "e" 7 c4Row = some c4Res ∧
    c4Res.collTotal = 100000 ∧ c4Cfg.acct = 1000 ∧ c4Cfg.cashAvail = 0 ∧
    ¬ c4Res.collTotal ≤ c4Cfg.acct := by
  refine ⟨c4_eval, rfl, rfl, rfl, ?_⟩
  norm_num [c4Res, c4Cfg]

theorem C4_collateral_amended_witness :
    (evalRow c4Cfg 50 "e" 7 c4Row = some c4Res) ∧
    ((isPut c4Cfg.mode = true →
        c4Res.collTotal = (c4Res.contracts : ℚ) * (c4Row.strike * 100) ∧
        c4Res.collTotal ≤ c4Cfg.cashAvail) ∧
     (isPut c4Cfg.mode = false →
        c4Res.collTotal = (c4Res.contracts : ℚ) * (50 * 100) ∧
        (¬(c4Cfg.autoDetect = true ∧ 0 < c4Cfg.sharesOwned) →
            c4Res.collTotal ≤ c4Cfg.acct) ∧
        (c4Cfg.autoDetect = true → 0 < c4Cfg.sharesOwned →
            c4Res.contracts ≤ c4Cfg.sharesOwned / 100)) ∧
     c4Res.contracts =
       (if 0 < c4Cfg.goalAmt then max 1 ⌈c4Cfg.goalAmt / c4Res.juiceCon⌉
        else 1)) :=
  ⟨c4_eval, C4_collateral_amended c4Cfg 50 "e" 7 c4Row c4Res c4_eval⟩

/-! ## C5: the premium policy -/

/-- C5 amended: in `juicebox_pro.py.py` the premium is `mid_price`:
`(bid+ask)/2` when both are present and `ask > 0`, else `lastPrice` when
present, else 0, and a contract whose premium is ≤ 0 is rejected.  In the
`income_bot.py` Deep Scanner, however, the premium used for income is the
raw bid alone, and the liquidity gate is `bid > 0.05` (not `premium > 0`
on a mid). -/
theorem C5_premium_amended :
    (∀ (row : OptionRow) (b a : ℚ), row.bid = some b → row.ask = some a →
        0 < a → mid_price row = (b + a) / 2) ∧
    (∀ (row : OptionRow) (b a : ℚ), row.bid = some b → row.ask = some a →
        a ≤ 0 → mid_price row = row.lastPrice.getD 0) ∧
    (∀ row : OptionRow, row.bid = none ∨ row.ask = none →
        mid_price row = row.lastPrice.getD 0) ∧
    (∀ cfg price exp dte row res, evalRow cfg price exp dte row = some res →
        res.totalPrem = round2 (mid_price row * 100) ∧ 0 < mid_price row) ∧
    (∀ cfg price exp dte row, mid_price row ≤ 0 →
        evalRow cfg price exp dte row = none) ∧
    (∀ strategy aggressive capital wt price rows r,
        ibEval strategy aggressive capital wt price rows = some r →
        r.income = r.bid * 100 * r.qty ∧ 5 / 100 < r.bid) := by
  refine ⟨?_, ?_, ?_, ?_, ?_, ?_⟩
  · rintro ⟨s, bid, ask, lp, oi⟩ b a hb ha hpos
    simp only at hb ha
    subst hb
    subst ha
    simp only [mid_price]
    rw [if_pos hpos]
  · rintro ⟨s, bid, ask, lp, oi⟩ b a hb ha hnp
    simp only at hb ha
    subst hb
    subst ha
    simp only [mid_price]
    rw [if_neg (not_lt.mpr hnp)]
    cases lp <;> rfl
  · rintro ⟨s, bid, ask, lp, oi⟩ (hb | ha)
    · simp only at hb
      subst hb
      simp only [mid_price]
      cases lp <;> rfl
    · simp only at ha
      subst ha
      simp only [mid_price]
      cases bid <;> (cases lp <;> rfl)
  · intro cfg price exp dte row res h
    have spec := evalRow_spec cfg price exp dte row res h
    exact ⟨spec.2.2.2.2.2.2.2.2.2.2.1, spec.2.2.1⟩
  · intro cfg price exp dte row hprem
    simp only [evalRow]
    by_cases h1 : row.strike ≤ 0
    · rw [if_pos h1]
    · rw [if_neg h1]
      by_cases h2 : row.openInterest < cfg.minOI
      · rw [if_pos h2]
      · rw [if_neg h2, if_pos hprem]
  · intro strategy aggressive capital wt price rows r h
    have spec := ibEval_spec strategy aggressive capital wt price rows r h
    exact ⟨spec.2.2.1, spec.1⟩

def c5Row : IBRow := ⟨40, 1, some 2, some (6/5), none⟩

def c5Res : IBResult :=
  { strike := 40, bid := 1, qty := 2, income := 200, returnPct := 2 }

theorem c5_eval :
    ibEval IBStrategy.cashSecuredPut false 10000 150 50 [c5Row]
      = some c5Res := by
  have hc : (⌈(3 : ℚ) / 2⌉ : ℤ) = 2 := by
    rw [Int.ceil_eq_iff]
    norm_num
  norm_num [ibEval, ibMatch, c5Row, c5Res, hc, List.filter]

/-- C5 counterexample: the Deep Scanner accepts this put candidate using
the raw bid (1.00) as the premium — its income is `bid * 100 * qty` —
although both bid and ask are present with `ask > 0` and
`mid(bid, ask) = 1.50`.  The premium used by this evaluator is therefore
not `mid(bid, ask)`. -/
theorem C5_premium_counterexample :
    ibEval IBStrategy.cashSecuredPut false 10000 150 50 [c5Row]
        = some c5Res ∧
    c5Res.income = c5Res.bid * 100 * c5Res.qty ∧
    c5Res.bid = 1 ∧
    mid_price ⟨c5Row.strike, some c5Row.bid, c5Row.ask, c5Row.lastPrice, 0⟩
        = 3 / 2 ∧
    (1 : ℚ) ≠ 3 / 2 := by
  refine ⟨c5_eval, by norm_num [c5Res], rfl, ?_, by norm_num⟩
  norm_num [mid_price, c5Row]

def c5WRow : OptionRow := ⟨50, some 1, some 2, some (6/5), 10⟩
def c5WRowDead : OptionRow := ⟨50, some (-2), some 2, none, 10⟩

theorem C5_premium_amended_witness :
    mid_price c5WRow = (1 + 2) / 2 ∧
    evalRow c10Cfg 100 "e" 7 c5WRowDead = none ∧
    (ibEval IBStrategy.cashSecuredPut false 10000 150 50 [c5Row]
          = some c5Res →
        c5Res.income = c5Res.bid * 100 * c5Res.qty ∧ 5 / 100 < c5Res.bid) :=
  ⟨C5_premium_amended.1 c5WRow 1 2 rfl rfl (by norm_num),
   C5_premium_amended.2.2.2.2.1 c10Cfg 100 "e" 7 c5WRowDead
     (by norm_num [mid_price, c5WRowDead]),
   C5_premium_amended.2.2.2.2.2 IBStrategy.cashSecuredPut false
     10000 150 50 [c5Row] c5Res⟩

/-! ## C2: best-candidate selection -/

theorem best_choice_isSome :
    ∀ (l : List ScanResult) (b : ScanResult),
      (best_choice (some b) l).isSome := by
  intro l
  induction l with
  | nil => intro b; rfl
  | cons a l ih =>
    intro b
    rw [best_choice]
    by_cases hab : b.totalRetPct < a.totalRetPct
    · simpa [hab] using ih a
    · simpa [hab] using ih b

theorem best_choice_some :
    ∀ (l : List ScanResult) (b r : ScanResult),
      best_choice (some b) l = some r →
      (r = b ∧ ∀ c ∈ l, c.totalRetPct ≤ b.totalRetPct) ∨
      (b.totalRetPct < r.totalRetPct ∧
        ∃ l₁ l₂, l = l₁ ++ r :: l₂ ∧
          (∀ c ∈ l₁, c.totalRetPct < r.totalRetPct) ∧
          (∀ c ∈ l₂, c.totalRetPct ≤ r.totalRetPct)) := by
  intro l
  induction l with
  | nil =>
    intro b r h
    rw [best_choice, Option.some_inj] at h
    exact Or.inl ⟨h.symm, by simp⟩
  | cons a l ih =>
    intro b r h
    rw [best_choice] at h
    by_cases hab : b.totalRetPct < a.totalRetPct
    · rw [if_pos hab] at h
      rcases ih a r h with ⟨rfl, hle⟩ | ⟨hlt, l₁, l₂, hsplit, h1, h2⟩
      · exact Or.inr ⟨hab, [], l, rfl, by simp, hle⟩
      · refine Or.inr ⟨lt_trans hab hlt, a :: l₁, l₂, by rw [hsplit]; simp, ?_, h2⟩
        intro c hc
        rcases List.mem_cons.mp hc with rfl | hc'
        · exact hlt
        · exact h1 c hc'
    · rw [if_neg hab] at h
      rcases ih b r h with ⟨rfl, hle⟩ | ⟨hlt, l₁, l₂, hsplit, h1, h2⟩
      · refine Or.inl ⟨rfl, ?_⟩
        intro c hc
        rcases List.mem_cons.mp hc with rfl | hc'
        · exact not_lt.mp hab
        · exact hle c hc'
      · refine Or.inr ⟨hlt, a :: l₁, l₂, by rw [hsplit]; simp, ?_, h2⟩
        intro c hc
        rcases List.mem_cons.mp hc with rfl | hc'
        · exact lt_of_le_of_lt (not_lt.mp hab) hlt
        · exact h1 c hc'

theorem best_choice_none_spec (l : List ScanResult) (r : ScanResult)
    (h : best_choice none l = some r) :
    ∃ l₁ l₂, l = l₁ ++ r :: l₂ ∧
      (∀ c ∈ l₁, c.totalRetPct < r.totalRetPct) ∧
      (∀ c ∈ l₂, c.totalRetPct ≤ r.totalRetPct) := by
  cases l with
  | nil => rw [best_choice] at h; exact absurd h (by simp)
  | cons a l =>
    rw [best_choice] at h
    rcases best_choice_some l a r h with ⟨rfl, hle⟩ | ⟨hlt, l₁, l₂, hsplit, h1, h2⟩
    · exact ⟨[], l, rfl, by simp, hle⟩
    · refine ⟨a :: l₁, l₂, by rw [hsplit]; simp, ?_, h2⟩
      intro c hc
      rcases List.mem_cons.mp hc with rfl | hc'
      · exact hlt
      · exact h1 c hc'

/-- C2 amended: for every ticker whose examined expirations yield at least
one qualifying candidate, the selection returns exactly one result: the
first candidate (in expiration-then-row iteration order) attaining the
maximal rounded "Total Return %" (`round(roiPercent, 2)`).  A tie — equal
rounded return — keeps the earlier candidate; `cushionPercent` plays no
role in tie-breaking. -/
theorem C2_best_choice_amended (cfg : Config) (price : ℚ)
    (opts : List ExpData) :
    (allCandidates cfg price opts ≠ [] →
        ∃ r, scanBest cfg price opts = some r) ∧
    (∀ r, scanBest cfg price opts = some r →
        ∃ l₁ l₂, allCandidates cfg price opts = l₁ ++ r :: l₂ ∧
          (∀ c ∈ l₁, c.totalRetPct < r.totalRetPct) ∧
          (∀ c ∈ l₂, c.totalRetPct ≤ r.totalRetPct)) := by
  constructor
  · intro hne
    unfold scanBest
    cases hl : allCandidates cfg price opts with
    | nil => exact absurd hl hne
    | cons a l =>
      rw [best_choice]
      exact Option.isSome_iff_exists.mp (best_choice_isSome l a)
  · intro r h
    exact best_choice_none_spec _ r h

def c2Cfg : Config :=
  { mode := Mode.deepITMCall, cushion := 10, minOI := 0, goalAmt := 150,
    acct := 1000000, cashAvail := 0, autoDetect := false, sharesOwned := 0,
    priceLo := 1, priceHi := 500, dteLo := 0, dteHi := 30,
    etfOnly := false, fSound := false }

def c2Row1 : OptionRow := ⟨90, some 12, some 12, none, 1000⟩
def c2Row2 : OptionRow := ⟨80, some 22, some 22, none, 1000⟩

def c2Exp : ExpData := ⟨"e", some 7, some ([c2Row1, c2Row2], [])⟩

def c2Res1 : ScanResult :=
  { strikeF := 90, priceF := 100, exp := "e", dte := 7, oi := 1000,
    extrinsicF := 200, intrinsicF := 1000, totalPrem := 1200,
    totalRetPct := 2, contracts := 1, totalJuice := 200,
    collateral := 10000, gradeTxt := "🟡 B", gradeKey := "b",
    goalMet := true, juiceCon := 200, collTotal := 10000, retRaw := 2 }

def c2Res2 : ScanResult :=
  { strikeF := 80, priceF := 100, exp := "e", dte := 7, oi := 1000,
    extrinsicF := 200, intrinsicF := 2000, totalPrem := 2200,
    totalRetPct := 2, contracts := 1, totalJuice := 200,
    collateral := 10000, gradeTxt := "🟡 B", gradeKey := "b",
    goalMet := true, juiceCon := 200, collTotal := 10000, retRaw := 2 }

theorem c2_eval1 : evalRow c2Cfg 100 "e" 7 c2Row1 = some c2Res1 := by
  have hc : (⌈(3 : ℚ) / 4⌉ : ℤ) = 1 := by
    rw [Int.ceil_eq_iff]
    norm_num
  have hm : (Mode.deepITMCall = Mode.closestOTM) = False :=
    eq_false (by decide)
  norm_num [evalRow, juiceOf, mid_price, intrinsicOf, extrinsicOf, isPut,
    collateral_ok, grade_from_return, round2, round0, c2Cfg, c2Row1,
    c2Res1, hc, hm]

theorem c2_eval2 : evalRow c2Cfg 100 "e" 7 c2Row2 = some c2Res2 := by
  have hc : (⌈(3 : ℚ) / 4⌉ : ℤ) = 1 := by
    rw [Int.ceil_eq_iff]
    norm_num
  have hm : (Mode.deepITMCall = Mode.closestOTM) = False :=
    eq_false (by decide)
  norm_num [evalRow, juiceOf, mid_price, intrinsicOf, extrinsicOf, isPut,
    collateral_ok, grade_from_return, round2, round0, c2Cfg, c2Row2,
    c2Res2, hc, hm]

theorem c2_cands : allCandidates c2Cfg 100 [c2Exp] = [c2Res1, c2Res2] := by
  have hm : c2Cfg.mode = Mode.deepITMCall := rfl
  have hcu : c2Cfg.cushion = 10 := rfl
  have hlo : c2Cfg.dteLo = 0 := rfl
  have hhi : c2Cfg.dteHi = 30 := rfl
  have hs1 : c2Row1.strike = 90 := rfl
  have hs2 : c2Row2.strike = 80 := rfl
  norm_num [allCandidates, candidatesOfExp, c2Exp, strategyFilter,
    isPut, List.filter, List.filterMap, hm, hcu, hlo, hhi, hs1, hs2,
    c2_eval1, c2_eval2]

/-- C2 counterexample: two Deep-ITM candidates (strikes 90 and 80 at price
100) have equal `roiPercent` (both 2.00) and the strike-80 candidate has
the larger cushion (20% vs 10%), yet the selection keeps the strike-90
candidate — the first one encountered — not the higher-cushion one.
Ties are not broken by `cushionPercent`. -/
theorem C2_tiebreak_counterexample :
    allCandidates c2Cfg 100 [c2Exp] = [c2Res1, c2Res2] ∧
    c2Res1.totalRetPct = c2Res2.totalRetPct ∧
    (100 - c2Res1.strikeF) / 100 * 100 < (100 - c2Res2.strikeF) / 100 * 100 ∧
    scanBest c2Cfg 100 [c2Exp] = some c2Res1 ∧
    c2Res1 ≠ c2Res2 := by
  refine ⟨c2_cands, rfl, by norm_num [c2Res1, c2Res2], ?_, ?_⟩
  · unfold scanBest
    rw [c2_cands]
    norm_num [best_choice, c2Res1, c2Res2]
  · intro hcontra
    have : c2Res1.strikeF = c2Res2.strikeF := by rw [hcontra]
    norm_num [c2Res1, c2Res2] at this

theorem C2_best_choice_amended_witness :
    (allCandidates c2Cfg 100 [c2Exp] ≠ [] →
        ∃ r, scanBest c2Cfg 100 [c2Exp] = some r) ∧
    (∃ r, scanBest c2Cfg 100 [c2Exp] = some r) ∧
    (∀ r, scanBest c2Cfg 100 [c2Exp] = some r →
        ∃ l₁ l₂, allCandidates c2Cfg 100 [c2Exp] = l₁ ++ r :: l₂ ∧
          (∀ c ∈ l₁, c.totalRetPct < r.totalRetPct) ∧
          (∀ c ∈ l₂, c.totalRetPct ≤ r.totalRetPct)) :=
  ⟨(C2_best_choice_amended c2Cfg 100 [c2Exp]).1,
   (C2_best_choice_amended c2Cfg 100 [c2Exp]).1 (by rw [c2_cands]; simp),
   (C2_best_choice_amended c2Cfg 100 [c2Exp]).2⟩

/-! ## C7: the probability model -/

/-- C7: `calculate_pop` returns exactly 0.5 whenever `iv ≤ 0` or
`days ≤ 0`, regardless of price, strike and strategy; for `iv > 0` and
`days > 0` the returned probability lies in [0, 1] for both strategies,
and it equals `1 - N(d2)` for the short put ("Cash-Secured Put") and
`N(d2)` for the short call ("Covered Call"), `N` being the standard
normal CDF. -/
theorem C7_probability_model (price strike : ℝ) (days : ℤ) (iv : ℝ) :
    ((iv ≤ 0 ∨ days ≤ 0) →
      ∀ s, calculate_pop price strike days iv s = 0.5) ∧
    (0 < iv → 0 < days →
      (∀ s, calculate_pop price strike days iv s ∈ Set.Icc (0 : ℝ) 1) ∧
      calculate_pop price strike days iv IBStrategy.cashSecuredPut
          = 1 - normCdf (d2val price strike days iv) ∧
      calculate_pop price strike days iv IBStrategy.coveredCall
          = normCdf (d2val price strike days iv)) := by
  have hcdf0 : ∀ x, 0 ≤ normCdf x := fun x =>
    ProbabilityTheory.cdf_nonneg (ProbabilityTheory.gaussianReal 0 1) x
  have hcdf1 : ∀ x, normCdf x ≤ 1 := fun x =>
    ProbabilityTheory.cdf_le_one (ProbabilityTheory.gaussianReal 0 1) x
  constructor
  · intro hdeg s
    unfold calculate_pop
    rw [if_pos hdeg]
  · intro hiv hdays
    have hne : ¬(iv ≤ 0 ∨ days ≤ 0) := by
      push_neg
      exact ⟨hiv, hdays⟩
    refine ⟨?_, ?_, ?_⟩
    · intro s
      unfold calculate_pop
      rw [if_neg hne]
      rw [Set.mem_Icc]
      cases s
      · rw [if_pos rfl]
        constructor
        · linarith [hcdf1 (d2val price strike days iv)]
        · linarith [hcdf0 (d2val price strike days iv)]
      · rw [if_neg (by decide)]
        exact ⟨hcdf0 _, hcdf1 _⟩
    · unfold calculate_pop
      rw [if_neg hne, if_pos rfl]
    · unfold calculate_pop
      rw [if_neg hne, if_neg (by decide)]

theorem C7_probability_model_witness :
    ((0 : ℝ) ≤ 0 ∨ (14 : ℤ) ≤ 0) ∧
    calculate_pop 100 90 14 0 IBStrategy.cashSecuredPut = 0.5 ∧
    (0 : ℝ) < 1 ∧ (0 : ℤ) < 14 ∧
    calculate_pop 50 48 14 1 IBStrategy.cashSecuredPut
        ∈ Set.Icc (0 : ℝ) 1 ∧
    calculate_pop 50 48 14 1 IBStrategy.cashSecuredPut
        = 1 - normCdf (d2val 50 48 14 1) :=
  ⟨Or.inl le_rfl,
   (C7_probability_model 100 90 14 0).1 (Or.inl le_rfl) _,
   by norm_num, by norm_num,
   ((C7_probability_model 50 48 14 1).2 (by norm_num) (by norm_num)).1 _,
   ((C7_probability_model 50 48 14 1).2 (by norm_num) (by norm_num)).2.1⟩

/-! ## C9: batch accounting -/

theorem scan_cases (cfg : Config) (t : String) (td : TickerData) :
    ((scan cfg t td).1.isSome ∧ (scan cfg t td).2.killedBy = "") ∨
    ((scan cfg t td).1 = none ∧ (scan cfg t td).2.killedBy ≠ "") := by
  unfold scan
  by_cases h1 : cfg.etfOnly ∧ td.quoteType ≠ "ETF"
  · rw [if_pos h1]
    exact Or.inr ⟨rfl, by show ("ETF Only" : String) ≠ ""; decide⟩
  rw [if_neg h1]
  by_cases h2 : cfg.fSound ∧ td.trailingEps.getD (-1) ≤ 0
  · rw [if_pos h2]
    exact Or.inr ⟨rfl, by show ("Fundamentals" : String) ≠ ""; decide⟩
  rw [if_neg h2]
  by_cases h3 : cfg.fSound ∧ recOk td.recommendationKey = false
  · rw [if_pos h3]
    exact Or.inr ⟨rfl, by show ("Fundamentals" : String) ≠ ""; decide⟩
  rw [if_neg h3]
  cases td.price with
  | none => exact Or.inr ⟨rfl, by show ("No Price" : String) ≠ ""; decide⟩
  | some p =>
    dsimp only
    by_cases h4 : p = 0
    · rw [if_pos h4]
      exact Or.inr ⟨rfl, by show ("No Price" : String) ≠ ""; decide⟩
    rw [if_neg h4]
    by_cases h5 : ¬(cfg.priceLo ≤ p ∧ p ≤ cfg.priceHi)
    · rw [if_pos h5]
      exact Or.inr ⟨rfl, by show ("Price Range" : String) ≠ ""; decide⟩
    rw [if_neg h5]
    by_cases h6 : td.opts = []
    · rw [if_pos h6]
      exact Or.inr ⟨rfl, by show ("No Options" : String) ≠ ""; decide⟩
    rw [if_neg h6]
    cases scanBest cfg p td.opts with
    | none =>
      exact Or.inr ⟨rfl, by show ("No Match" : String) ≠ ""; decide⟩
    | some b => exact Or.inl ⟨rfl, rfl⟩

/-- C9: over a batch of N tickers, every ticker is accounted for exactly
once: each `scan` returns either a result (with an empty `KilledBy`) or a
non-empty failure reason, never both and never neither, so
`len(results) + len(failures) = N` after `scan_all`'s collection loop. -/
theorem C9_batch_accounting (cfg : Config)
    (ts : List (String × TickerData)) :
    (scan_all cfg ts).1.length + (scan_all cfg ts).2.length = ts.length := by
  simp only [scan_all]
  induction ts with
  | nil => rfl
  | cons p ts ih =>
    simp only [List.map_cons, List.filterMap_cons, List.filter_cons]
    rcases scan_cases cfg p.1 p.2 with ⟨h1, h2⟩ | ⟨h1, h2⟩
    · obtain ⟨r, hr⟩ := Option.isSome_iff_exists.mp h1
      rw [hr, h2]
      rw [if_neg (by decide)]
      dsimp only
      simp only [List.length_cons]
      omega
    · rw [h1]
      rw [if_pos (decide_eq_true h2)]
      dsimp only
      simp only [List.length_cons]
      omega

/-! ## C8: strike admissibility of accepted candidates -/

def c8Row : OptionRow := ⟨90, some 12, some 12, none, 1000⟩

def c8Cfg : Config :=
  { mode := Mode.deepITMCall, cushion := 10, minOI := 0, goalAmt := 150,
    acct := 1000000, cashAvail := 0, autoDetect := false, sharesOwned := 0,
    priceLo := 1, priceHi := 500, dteLo := 0, dteHi := 30,
    etfOnly := false, fSound := false }

def c8Exp : ExpData := ⟨"e", some 7, some ([c8Row], [])⟩

def c8Res : ScanResult :=
  { strikeF := 90, priceF := 100, exp := "e", dte := 7, oi := 1000,
    extrinsicF := 200, intrinsicF := 1000, totalPrem := 1200,
    totalRetPct := 2, contracts := 1, totalJuice := 200,
    collateral := 10000, gradeTxt := "🟡 B", gradeKey := "b",
    goalMet := true, juiceCon := 200, collTotal := 10000, retRaw := 2 }

theorem c8_eval : evalRow c8Cfg 100 "e" 7 c8Row = some c8Res := by
  have hc : (⌈(3 : ℚ) / 4⌉ : ℤ) = 1 := by
    rw [Int.ceil_eq_iff]
    norm_num
  have hm : (Mode.deepITMCall = Mode.closestOTM) = False :=
    eq_false (by decide)
  norm_num [evalRow, juiceOf, mid_price, intrinsicOf, extrinsicOf, isPut,
    collateral_ok, grade_from_return, round2, round0, c8Cfg, c8Row,
    c8Res, hc, hm]

theorem c8_cands : candidatesOfExp c8Cfg 100 c8Exp = [c8Res] := by
  have hm : c8Cfg.mode = Mode.deepITMCall := rfl
  have hcu : c8Cfg.cushion = 10 := rfl
  have hlo : c8Cfg.dteLo = 0 := rfl
  have hhi : c8Cfg.dteHi = 30 := rfl
  have hs : c8Row.strike = 90 := rfl
  norm_num [candidatesOfExp, c8Exp, strategyFilter, isPut, List.filter,
    List.filterMap, hm, hcu, hlo, hhi, hs, c8_eval]

/-- C8: the strike of every accepted candidate satisfies its strategy's
admissibility rule.  Part 1: membership in the strategy filter implies
the rule — Deep ITM Covered Call ⇒ `strike ≤ price * (1 - cushion/100)`;
Standard OTM Covered Call ⇒ `strike > price`; Cash Secured Put OTM ⇒
`strike ≤ price`; Cash Secured Put ITM ⇒
`strike ≥ price * (1 + cushion/100)`.  Part 2: every accepted result of
an expiration arises from a row of exactly that filter output (whose
strike it records, rounded to 2 decimals), so an accepted candidate's
strike obeys its rule. -/
theorem C8_strike_admissibility :
    (∀ (m : Mode) (price cushion : ℚ) (df : List OptionRow)
        (row : OptionRow), row ∈ strategyFilter m price cushion df →
      (m = Mode.deepITMCall → row.strike ≤ price * (1 - cushion / 100)) ∧
      (m = Mode.standardCC → price < row.strike) ∧
      (m = Mode.cspOTM → row.strike ≤ price) ∧
      (m = Mode.cspITM → price * (1 + cushion / 100) ≤ row.strike)) ∧
    (∀ (cfg : Config) (price : ℚ) (ed : ExpData) (res : ScanResult),
        res ∈ candidatesOfExp cfg price ed →
      ∃ dte calls puts row,
        ed.dte = some dte ∧ ed.chain = some (calls, puts) ∧
        row ∈ strategyFilter cfg.mode price cfg.cushion
          (if isPut cfg.mode then puts else calls) ∧
        evalRow cfg price ed.exp dte row = some res ∧
        res.strikeF = round2 row.strike) := by
  constructor
  · intro m price cushion df row h
    refine ⟨?_, ?_, ?_, ?_⟩ <;> rintro rfl <;>
      simp only [strategyFilter, List.mem_filter, decide_eq_true_eq] at h <;>
      exact h.2
  · intro cfg price ed res hres
    unfold candidatesOfExp at hres
    cases hdte : ed.dte with
    | none =>
      rw [hdte] at hres
      simp at hres
    | some dte =>
      rw [hdte] at hres
      dsimp only at hres
      by_cases hr : cfg.dteLo ≤ dte ∧ dte ≤ cfg.dteHi
      · rw [if_pos hr] at hres
        cases hch : ed.chain with
        | none =>
          rw [hch] at hres
          simp at hres
        | some c =>
          rw [hch] at hres
          obtain ⟨calls, puts⟩ := c
          dsimp only at hres
          rw [List.mem_filterMap] at hres
          obtain ⟨row, hmem, heval⟩ := hres
          exact ⟨dte, calls, puts, row, rfl, rfl, hmem, heval,
            (evalRow_spec _ _ _ _ _ _ heval).2.2.2.2.2.2.2.2.2.2.2.1⟩
      · rw [if_neg hr] at hres
        simp at hres

theorem C8_strike_admissibility_witness :
    (c8Row ∈ strategyFilter Mode.deepITMCall 100 10 [c8Row] ∧
     ((Mode.deepITMCall = Mode.deepITMCall →
         c8Row.strike ≤ 100 * (1 - 10 / 100)) ∧
      (Mode.deepITMCall = Mode.standardCC → 100 < c8Row.strike) ∧
      (Mode.deepITMCall = Mode.cspOTM → c8Row.strike ≤ 100) ∧
      (Mode.deepITMCall = Mode.cspITM →
         100 * (1 + 10 / 100) ≤ c8Row.strike))) ∧
    (c8Res ∈ candidatesOfExp c8Cfg 100 c8Exp ∧
     ∃ dte calls puts row,
        c8Exp.dte = some dte ∧ c8Exp.chain = some (calls, puts) ∧
        row ∈ strategyFilter c8Cfg.mode 100 c8Cfg.cushion
          (if isPut c8Cfg.mode then puts else calls) ∧
        evalRow c8Cfg 100 c8Exp.exp dte row = some c8Res ∧
        c8Res.strikeF = round2 row.strike) :=
  ⟨⟨by norm_num [strategyFilter, List.mem_filter, c8Row],
    C8_strike_admissibility.1 Mode.deepITMCall 100 10 [c8Row] c8Row
      (by norm_num [strategyFilter, List.mem_filter, c8Row])⟩,
   ⟨by rw [c8_cands]; exact List.mem_singleton.mpr rfl,
    C8_strike_admissibility.2 c8Cfg 100 c8Exp c8Res
      (by rw [c8_cands]; exact List.mem_singleton.mpr rfl)⟩⟩
